import Mathlib

/-!
Shallow embedding of the `el-gamal-sigma-protocol` crate (`src/lib.rs`).

Modelling choices, mirroring the Rust source:

* The curve group `C : CurveGroup` is modelled by an additive commutative
  group `G` that is a module over the scalar field `C::ScalarField`,
  modelled as `ZMod q` where `q` is the order of the scalar field.  Rust
  scalar multiplication `p * s` becomes `s • p`.  The module structure
  encodes the standing assumption that the supplied generators lie in the
  prime-order subgroup, i.e. have the expected order.
* Affine points (`C::Affine`) are a separate type `A`; `intoAffine : G → A`
  models the `.into()` conversion used when a `Ciphertext` is built.
* Canonical compressed serialization (`serialize_compressed` from
  `ark_serialize`, an external collaborator) is an abstract function
  `serG : G → List UInt8` on projective points and `serA : A → List UInt8`
  on affine points.  Writing into a `Vec` cannot fail, so the primary model
  is total; a fallible variant is kept alongside it to model the
  `Result`/`expect` plumbing in the source.
* The extendable-output hash `Shake128` is modelled by its absorb state:
  `default()` starts from the empty byte string, `update` appends, and the
  `finalize_xof().read` step is an abstract function
  `xof : List UInt8 → List UInt8` of the absorbed bytes.
* `ark_ff::PrimeField::from_be_bytes_mod_order` (external collaborator) is
  modelled by its documented semantics: interpret the bytes as a big-endian
  integer and reduce modulo the scalar field order.
* The `Rng` passed to `prove` is modelled by explicit state passing: a
  state type `σ` together with `rand : σ → ZMod q × σ`; each call to
  `ScalarField::rand` consumes one step of the generator.
-/

/-- Big-endian interpretation of a byte string reduced modulo `q`; models
`ark_ff::PrimeField::from_be_bytes_mod_order`. -/
def from_be_bytes_mod_order (q : ℕ) (bytes : List UInt8) : ZMod q :=
  ((bytes.foldl (fun acc b => acc * 256 + b.toNat) 0 : ℕ) : ZMod q)

/-- The `shake128` helper from `src/lib.rs`: start from the default hasher,
absorb each item of `input` in order, then squeeze a digest.  The absorb
state of the hasher is the byte string absorbed so far and `update`
appends; the squeeze step is the abstract `xof`. -/
def shake128 (xof : List UInt8 → List UInt8) (input : List (List UInt8)) :
    List UInt8 :=
  xof (input.foldl (fun st item => st ++ item) [])

/-- `pub type Commitment<C> = C`. -/
abbrev Commitment (C : Type) : Type := C

/-- `pub struct Ciphertext<C: CurveGroup> { c1: C::Affine, c2: C::Affine }`. -/
structure Ciphertext (A : Type) where
  c1 : A
  c2 : A

/-- `Ciphertext::serialize_compressed`, with the external affine serializer
modelled as the total function `serA`. -/
def Ciphertext.serialize_compressed {A : Type} (serA : A → List UInt8)
    (ct : Ciphertext A) : List UInt8 × List UInt8 :=
  (serA ct.c1, serA ct.c2)

/-- `Ciphertext::serialize_compressed` with the external serializer allowed
to fail, mirroring the `Result<(Vec<u8>, Vec<u8>), SerializationError>`
return type in the source (`?` propagates the error). -/
def Ciphertext.serialize_compressedE {A : Type}
    (serA : A → Option (List UInt8)) (ct : Ciphertext A) :
    Option (List UInt8 × List UInt8) := do
  let c1_bytes ← serA ct.c1
  let c2_bytes ← serA ct.c2
  pure (c1_bytes, c2_bytes)

/-- `pub struct PoK<C: CurveGroup> { t: C, a: C, z: C::ScalarField }`. -/
structure PoK (G : Type) (q : ℕ) where
  t : G
  a : G
  z : ZMod q

/-- `pub struct Params<C: CurveGroup> { g: C, h: C }`. -/
structure Params (G : Type) where
  g : G
  h : G

namespace ElGamalSigmaProtocol

/-- The challenge computation shared verbatim by `prove` and `verify` in the
source: serialize `t`, `a` compressed, serialize the ciphertext compressed,
collect the four byte strings in the order `t, a, c1, c2`, hash them with
`shake128` and reduce the digest big-endian modulo the scalar field order. -/
def challengeOf (q : ℕ) {G A : Type} (serG : G → List UInt8)
    (serA : A → List UInt8) (xof : List UInt8 → List UInt8)
    (t a : G) (ct : Ciphertext A) : ZMod q :=
  from_be_bytes_mod_order q
    (shake128 xof
      [serG t, serG a,
        (ct.serialize_compressed serA).1, (ct.serialize_compressed serA).2])

/-- `ElGamalSigmaProtocol::prove`.  Draws `r` then `k` from the randomness
source, builds the ciphertext `(g*r, h*(s*r))` in affine form, the
commitment `g*s + h*s`, the transcript `(t, a) = (g*k, h*k)`, the
Fiat-Shamir challenge, and the response `z = k + e*s`. -/
def prove (q : ℕ) {G A σ : Type} [AddCommGroup G] [Module (ZMod q) G]
    (serG : G → List UInt8) (intoAffine : G → A) (serA : A → List UInt8)
    (xof : List UInt8 → List UInt8)
    (s : ZMod q) (params : Params G) (rand : σ → ZMod q × σ) (rng : σ) :
    Commitment G × Ciphertext A × PoK G q :=
  let r := (rand rng).1
  let rng1 := (rand rng).2
  let c1 := r • params.g
  let c2 := (s * r) • params.h
  let ct : Ciphertext A := { c1 := intoAffine c1, c2 := intoAffine c2 }
  let c : Commitment G := s • params.g + s • params.h
  let k := (rand rng1).1
  let t := k • params.g
  let a := k • params.h
  let challenge : ZMod q := challengeOf q serG serA xof t a ct
  let z := k + challenge * s
  (c, ct, { t := t, a := a, z := z })

/-- `ElGamalSigmaProtocol::verify`: recompute the challenge from the
transcript `t, a, c1, c2` and accept iff
`g*z + h*z == t + a + commitment*e`. -/
def verify (q : ℕ) {G A : Type} [AddCommGroup G] [Module (ZMod q) G]
    [DecidableEq G]
    (serG : G → List UInt8) (serA : A → List UInt8)
    (xof : List UInt8 → List UInt8)
    (commitment : Commitment G) (ciphertext : Ciphertext A)
    (proof : PoK G q) (params : Params G) : Bool :=
  let challenge : ZMod q := challengeOf q serG serA xof proof.t proof.a ciphertext
  let zg := proof.z • params.g
  let zh := proof.z • params.h
  decide (zg + zh = proof.t + proof.a + challenge • commitment)

/-- `ElGamalSigmaProtocol::verify` with the external serializers allowed to
fail; `none` models the panic of the `expect` calls in the source. -/
def verifyE (q : ℕ) {G A : Type} [AddCommGroup G] [Module (ZMod q) G]
    [DecidableEq G]
    (serG : G → Option (List UInt8)) (serA : A → Option (List UInt8))
    (xof : List UInt8 → List UInt8)
    (commitment : Commitment G) (ciphertext : Ciphertext A)
    (proof : PoK G q) (params : Params G) : Option Bool := do
  let t_bytes ← serG proof.t
  let a_bytes ← serG proof.a
  let cbytes ← ciphertext.serialize_compressedE serA
  let challenge : ZMod q :=
    from_be_bytes_mod_order q
      (shake128 xof [t_bytes, a_bytes, cbytes.1, cbytes.2])
  let zg := proof.z • params.g
  let zh := proof.z • params.h
  pure (decide (zg + zh = proof.t + proof.a + challenge • commitment))

end ElGamalSigmaProtocol

section ConcreteInstance

/-! A small executable instance: the group is the additive group `ZMod 5`
viewed as a module over itself, affine conversion is the identity, a point
serializes to its single canonical byte, and the abstract squeeze step is
instantiated with simple executable functions. -/

/-- Serialize an element of `ZMod 5` as one byte. -/
def serZ5 (x : ZMod 5) : List UInt8 := [UInt8.ofNat x.val]

/-- A concrete stand-in for the squeeze step: 32 copies of the byte sum. -/
def xofSum (bytes : List UInt8) : List UInt8 :=
  List.replicate 32 (bytes.foldl (fun acc b => acc + b) 0)

/-- A degenerate squeeze step that returns the all-zero digest. -/
def xofZero (_ : List UInt8) : List UInt8 := List.replicate 32 0

/-- A randomness source that always returns the scalar 1. -/
def randOne (_ : Unit) : ZMod 5 × Unit := (1, ())

end ConcreteInstance

section Lemmas

/-- Folding `++` over a list of byte strings concatenates them. -/
lemma foldl_append_eq_join (l : List (List UInt8)) (acc : List UInt8) :
    l.foldl (fun st item => st ++ item) acc = acc ++ l.flatten := by
  induction l generalizing acc with
  | nil => simp
  | cons x xs ih => simp [List.foldl_cons, ih, List.append_assoc]

/-- The absorbed state handed to the squeeze step is the concatenation of
the absorbed items. -/
lemma shake128_eq_join (xof : List UInt8 → List UInt8)
    (l : List (List UInt8)) : shake128 xof l = xof l.flatten := by
  simp [shake128, foldl_append_eq_join]

/-- The big-endian fold over bytes computes the base-256 value of the
reversed digit list, shifted by the accumulator. -/
lemma foldl_be_eq_ofDigits (bytes : List UInt8) (acc : ℕ) :
    bytes.foldl (fun acc b => acc * 256 + b.toNat) acc
      = Nat.ofDigits 256 ((bytes.map (fun b => b.toNat)).reverse)
        + acc * 256 ^ bytes.length := by
  induction bytes generalizing acc with
  | nil => simp
  | cons b bs ih =>
      simp only [List.foldl_cons, List.map_cons, List.reverse_cons,
        List.length_cons, ih, Nat.ofDigits_append, Nat.ofDigits_cons,
        Nat.ofDigits_nil, List.length_reverse, List.length_map]
      ring

/-- `from_be_bytes_mod_order` is the big-endian integer value of the byte
string reduced modulo `q`. -/
lemma from_be_bytes_mod_order_eq (q : ℕ) (bytes : List UInt8) :
    from_be_bytes_mod_order q bytes
      = ((Nat.ofDigits 256 ((bytes.map (fun b => b.toNat)).reverse) : ℕ) :
          ZMod q) := by
  simp [from_be_bytes_mod_order, foldl_be_eq_ofDigits]

end Lemmas

/-- The challenge derivation as §4.4 of the specification describes it:
absorb the four compressed byte strings in the fixed order `t, a, c1, c2`
into the extendable-output hash, squeeze a digest, interpret the digest as
a big-endian integer and reduce it modulo the scalar field order. -/
def hashToScalarSpec (q : ℕ) (xof : List UInt8 → List UInt8)
    (tB aB c1B c2B : List UInt8) : ZMod q :=
  ((Nat.ofDigits 256
      (((xof (tB ++ aB ++ c1B ++ c2B)).map (fun b => b.toNat)).reverse) : ℕ) :
    ZMod q)

open ElGamalSigmaProtocol in
/-- C1.  Completeness round-trip: for every secret scalar `s`, parameters
`{g, h}` and randomness source, feeding the triple produced by
`prove s params rng` into `verify` with the same parameters returns
`true`. -/
theorem prove_verify_completeness (q : ℕ) {G A σ : Type} [AddCommGroup G]
    [Module (ZMod q) G] [DecidableEq G]
    (serG : G → List UInt8) (intoAffine : G → A) (serA : A → List UInt8)
    (xof : List UInt8 → List UInt8)
    (s : ZMod q) (params : Params G) (rand : σ → ZMod q × σ) (rng : σ) :
    verify q serG serA xof
      (prove q serG intoAffine serA xof s params rand rng).1
      (prove q serG intoAffine serA xof s params rand rng).2.1
      (prove q serG intoAffine serA xof s params rand rng).2.2
      params = true := by
  simp only [prove, verify, decide_eq_true_eq, add_smul, mul_smul, smul_add]
  abel

open ElGamalSigmaProtocol in
/-- C2.  Verification equation: `verify` returns `true` iff
`g*z + h*z = t + a + commitment*e` in the group, where `e` is the
challenge recomputed from the serialized transcript. -/
theorem verify_iff_equation (q : ℕ) {G A : Type} [AddCommGroup G]
    [Module (ZMod q) G] [DecidableEq G]
    (serG : G → List UInt8) (serA : A → List UInt8)
    (xof : List UInt8 → List UInt8)
    (commitment : Commitment G) (ciphertext : Ciphertext A)
    (proof : PoK G q) (params : Params G) :
    verify q serG serA xof commitment ciphertext proof params = true ↔
      proof.z • params.g + proof.z • params.h
        = proof.t + proof.a
          + challengeOf q serG serA xof proof.t proof.a ciphertext
              • commitment := by
  simp [verify]

open ElGamalSigmaProtocol in
/-- C4.  Prove commitment and ciphertext construction: the commitment is
`g*s + h*s`, and the ciphertext is `{c1 = g*r, c2 = h*(s*r)}` in affine
form, where `r` is the first scalar sampled from the randomness source. -/
theorem prove_commitment_ciphertext (q : ℕ) {G A σ : Type} [AddCommGroup G]
    [Module (ZMod q) G]
    (serG : G → List UInt8) (intoAffine : G → A) (serA : A → List UInt8)
    (xof : List UInt8 → List UInt8)
    (s : ZMod q) (params : Params G) (rand : σ → ZMod q × σ) (rng : σ) :
    (prove q serG intoAffine serA xof s params rand rng).1
        = s • params.g + s • params.h
      ∧ (prove q serG intoAffine serA xof s params rand rng).2.1.c1
        = intoAffine ((rand rng).1 • params.g)
      ∧ (prove q serG intoAffine serA xof s params rand rng).2.1.c2
        = intoAffine ((s * (rand rng).1) • params.h) :=
  ⟨rfl, rfl, rfl⟩

open ElGamalSigmaProtocol in
/-- C5.  Prove proof construction: the returned `PoK` satisfies `t = g*k`,
`a = h*k` for the second sampled scalar `k`, and `z = k + e*s` where `e`
is the Fiat-Shamir challenge over the serialized `t, a, c1, c2`. -/
theorem prove_pok_construction (q : ℕ) {G A σ : Type} [AddCommGroup G]
    [Module (ZMod q) G]
    (serG : G → List UInt8) (intoAffine : G → A) (serA : A → List UInt8)
    (xof : List UInt8 → List UInt8)
    (s : ZMod q) (params : Params G) (rand : σ → ZMod q × σ) (rng : σ) :
    (prove q serG intoAffine serA xof s params rand rng).2.2.t
        = (rand (rand rng).2).1 • params.g
      ∧ (prove q serG intoAffine serA xof s params rand rng).2.2.a
        = (rand (rand rng).2).1 • params.h
      ∧ (prove q serG intoAffine serA xof s params rand rng).2.2.z
        = (rand (rand rng).2).1
          + challengeOf q serG serA xof
              (prove q serG intoAffine serA xof s params rand rng).2.2.t
              (prove q serG intoAffine serA xof s params rand rng).2.2.a
              (prove q serG intoAffine serA xof s params rand rng).2.1 * s :=
  ⟨rfl, rfl, rfl⟩

open ElGamalSigmaProtocol in
/-- C3.  Challenge derivation: the challenge computed by `prove` and
`verify` is exactly the result of absorbing the compressed encodings of
`t, a, c1, c2` in that order into the extendable-output hash, squeezing a
digest, and reducing the digest as a big-endian integer modulo the scalar
field order; both operations invoke the identical procedure
(`challengeOf`): `prove` uses it for the response `z` and `verify` uses it
in the acceptance equation. -/
theorem challenge_derivation_spec (q : ℕ) {G A σ : Type} [AddCommGroup G]
    [Module (ZMod q) G] [DecidableEq G]
    (serG : G → List UInt8) (intoAffine : G → A) (serA : A → List UInt8)
    (xof : List UInt8 → List UInt8) :
    (∀ (t a : G) (ct : Ciphertext A),
        challengeOf q serG serA xof t a ct
          = hashToScalarSpec q xof (serG t) (serG a) (serA ct.c1)
              (serA ct.c2))
      ∧ (∀ (s : ZMod q) (params : Params G) (rand : σ → ZMod q × σ) (rng : σ),
          (prove q serG intoAffine serA xof s params rand rng).2.2.z
            = (rand (rand rng).2).1
              + challengeOf q serG serA xof
                  (prove q serG intoAffine serA xof s params rand rng).2.2.t
                  (prove q serG intoAffine serA xof s params rand rng).2.2.a
                  (prove q serG intoAffine serA xof s params rand rng).2.1
                * s)
      ∧ (∀ (c : Commitment G) (ct : Ciphertext A) (pok : PoK G q)
            (params : Params G),
          verify q serG serA xof c ct pok params
            = decide (pok.z • params.g + pok.z • params.h
                = pok.t + pok.a
                  + challengeOf q serG serA xof pok.t pok.a ct • c)) := by
  refine ⟨fun t a ct => ?_, fun s params rand rng => rfl,
    fun c ct pok params => rfl⟩
  simp [challengeOf, hashToScalarSpec, shake128_eq_join,
    from_be_bytes_mod_order_eq, Ciphertext.serialize_compressed]

open ElGamalSigmaProtocol in
/-- C6.  Verify determinism: two invocations of `verify` on identical
inputs yield the same boolean, and the derived challenge is a function of
the serialized transcript bytes alone: inputs whose four serialized
components agree bytewise produce the same challenge. -/
theorem verify_deterministic (q : ℕ) {G A : Type} [AddCommGroup G]
    [Module (ZMod q) G] [DecidableEq G]
    (serG : G → List UInt8) (serA : A → List UInt8)
    (xof : List UInt8 → List UInt8)
    (commitment : Commitment G) (ciphertext : Ciphertext A)
    (proof : PoK G q) (params : Params G)
    (b1 b2 : Bool)
    (h1 : verify q serG serA xof commitment ciphertext proof params = b1)
    (h2 : verify q serG serA xof commitment ciphertext proof params = b2)
    (t a t2 a2 : G) (ct ct2 : Ciphertext A)
    (ht : serG t = serG t2) (ha : serG a = serG a2)
    (hc1 : serA ct.c1 = serA ct2.c1) (hc2 : serA ct.c2 = serA ct2.c2) :
    b1 = b2
      ∧ challengeOf q serG serA xof t a ct
        = challengeOf q serG serA xof t2 a2 ct2 := by
  constructor
  · rw [← h1, ← h2]
  · simp [challengeOf, Ciphertext.serialize_compressed, ht, ha, hc1, hc2]

open ElGamalSigmaProtocol in
/-- C7.  Verify never fails: whenever the external serializer encodes every
group element it is handed (its contract, per §4.5 and §7 of the
specification), `verifyE` returns `some` boolean on every input — the
`expect` calls cannot panic — and that boolean is the value of the total
model `verify`; an invalid proof yields the return value `false`, never an
exceptional outcome. -/
theorem verify_never_fails (q : ℕ) {G A : Type} [AddCommGroup G]
    [Module (ZMod q) G] [DecidableEq G]
    (serGE : G → Option (List UInt8)) (serAE : A → Option (List UInt8))
    (serG : G → List UInt8) (serA : A → List UInt8)
    (xof : List UInt8 → List UInt8)
    (hG : ∀ x, serGE x = some (serG x)) (hA : ∀ y, serAE y = some (serA y))
    (commitment : Commitment G) (ciphertext : Ciphertext A)
    (proof : PoK G q) (params : Params G) :
    verifyE q serGE serAE xof commitment ciphertext proof params
      = some (verify q serG serA xof commitment ciphertext proof params) := by
  simp [verifyE, verify, challengeOf, Ciphertext.serialize_compressedE,
    Ciphertext.serialize_compressed, hG, hA, bind, pure]

open ElGamalSigmaProtocol in
/-- C9.  `verify` depends on the parameters only through the sum
`g + h`: two parameter values with equal `g + h` (for instance the swap of
`g` and `h`) give the same boolean on every input, because the only use of
the parameters is `g*z + h*z = z•(g + h)`; the challenge and the right
hand side of the check never read the parameters. -/
theorem verify_params_sum (q : ℕ) {G A : Type} [AddCommGroup G]
    [Module (ZMod q) G] [DecidableEq G]
    (serG : G → List UInt8) (serA : A → List UInt8)
    (xof : List UInt8 → List UInt8)
    (commitment : Commitment G) (ciphertext : Ciphertext A)
    (proof : PoK G q) (p p2 : Params G)
    (hsum : p.g + p.h = p2.g + p2.h) :
    verify q serG serA xof commitment ciphertext proof p
      = verify q serG serA xof commitment ciphertext proof p2 := by
  simp only [verify, ← smul_add, hsum]

/-- C10.  No domain separation in the challenge hash: `shake128` only sees
the concatenation of the absorbed byte strings, so any two input lists
with equal concatenations produce the identical digest, wherever the
boundaries between the four transcript parts fall. -/
theorem shake128_no_domain_separation (xof : List UInt8 → List UInt8)
    (l1 l2 : List (List UInt8)) (h : l1.flatten = l2.flatten) :
    shake128 xof l1 = shake128 xof l2 := by
  rw [shake128_eq_join, shake128_eq_join, h]

open ElGamalSigmaProtocol in
/-- C8 counterexample.  When the squeezed digest reduces to the zero
scalar, the verification equation no longer involves the commitment, so
the honest `(ciphertext, proof)` pair for secret `1` (honest commitment
`2` over `ZMod 5`) verifies against the commitment `4` computed for the
unrelated secret `2` — `verify` returns `true` where the claim requires
`false`. -/
theorem soundness_bad_commitment_counterexample :
    (prove 5 serZ5 (fun x => x) serZ5 xofZero 1 ⟨1, 1⟩ randOne ()).1 = 2
      ∧ (2 : ZMod 5) • (1 : ZMod 5) + (2 : ZMod 5) • (1 : ZMod 5) = 4
      ∧ (4 : ZMod 5)
          ≠ (prove 5 serZ5 (fun x => x) serZ5 xofZero 1 ⟨1, 1⟩ randOne ()).1
      ∧ verify 5 serZ5 serZ5 xofZero 4
          (prove 5 serZ5 (fun x => x) serZ5 xofZero 1 ⟨1, 1⟩ randOne ()).2.1
          (prove 5 serZ5 (fun x => x) serZ5 xofZero 1 ⟨1, 1⟩ randOne ()).2.2
          ⟨1, 1⟩ = true := by
  refine ⟨by decide, by decide, by decide, by decide⟩

open ElGamalSigmaProtocol in
/-- C8 amended.  Pairing the `(ciphertext, proof)` transcript produced by
`prove` for secret `s` with a commitment `g*s2 + h*s2` distinct from the
honest commitment makes `verify` return `false`, provided the recomputed
challenge is nonzero and scalar multiplication on the group has no zero
divisors (prime-order subgroup); a zero challenge is the soundness-error
case in which any commitment is accepted. -/
theorem soundness_bad_commitment (q : ℕ) {G A σ : Type} [AddCommGroup G]
    [Module (ZMod q) G] [DecidableEq G]
    (serG : G → List UInt8) (intoAffine : G → A) (serA : A → List UInt8)
    (xof : List UInt8 → List UInt8)
    (s s2 : ZMod q) (params : Params G) (rand : σ → ZMod q × σ) (rng : σ)
    (hsmul : ∀ (e : ZMod q) (x : G), e • x = 0 → e = 0 ∨ x = 0)
    (hchal : challengeOf q serG serA xof
        (prove q serG intoAffine serA xof s params rand rng).2.2.t
        (prove q serG intoAffine serA xof s params rand rng).2.2.a
        (prove q serG intoAffine serA xof s params rand rng).2.1 ≠ 0)
    (hne : s2 • params.g + s2 • params.h
        ≠ (prove q serG intoAffine serA xof s params rand rng).1) :
    verify q serG serA xof (s2 • params.g + s2 • params.h)
      (prove q serG intoAffine serA xof s params rand rng).2.1
      (prove q serG intoAffine serA xof s params rand rng).2.2
      params = false := by
  simp only [prove] at hchal hne ⊢
  simp only [verify, decide_eq_false_iff_not, decide_eq_true_eq]
  intro heq
  have hz : ((rand (rand rng).2).1
        + challengeOf q serG serA xof
            ((rand (rand rng).2).1 • params.g)
            ((rand (rand rng).2).1 • params.h)
            { c1 := intoAffine ((rand rng).1 • params.g),
              c2 := intoAffine ((s * (rand rng).1) • params.h) } * s)
          • params.g
      + ((rand (rand rng).2).1
        + challengeOf q serG serA xof
            ((rand (rand rng).2).1 • params.g)
            ((rand (rand rng).2).1 • params.h)
            { c1 := intoAffine ((rand rng).1 • params.g),
              c2 := intoAffine ((s * (rand rng).1) • params.h) } * s)
          • params.h
      = ((rand (rand rng).2).1 • params.g + (rand (rand rng).2).1 • params.h)
        + challengeOf q serG serA xof
            ((rand (rand rng).2).1 • params.g)
            ((rand (rand rng).2).1 • params.h)
            { c1 := intoAffine ((rand rng).1 • params.g),
              c2 := intoAffine ((s * (rand rng).1) • params.h) }
          • (s • params.g + s • params.h) := by
    simp only [add_smul, mul_smul, smul_add]
    abel
  rw [hz] at heq
  have hc := add_left_cancel heq
  have hzero : challengeOf q serG serA xof
      ((rand (rand rng).2).1 • params.g)
      ((rand (rand rng).2).1 • params.h)
      { c1 := intoAffine ((rand rng).1 • params.g),
        c2 := intoAffine ((s * (rand rng).1) • params.h) }
      • ((s • params.g + s • params.h)
          - (s2 • params.g + s2 • params.h)) = 0 := by
    rw [smul_sub, hc, sub_self]
  rcases hsmul _ _ hzero with h0 | hdiff
  · exact hchal h0
  · exact hne (sub_eq_zero.mp hdiff).symm

open ElGamalSigmaProtocol in
/-- Witness for C6 at a concrete instance over `ZMod 5`. -/
theorem verify_deterministic_witness :
    (false = false)
      ∧ challengeOf 5 serZ5 serZ5 xofSum (1 : ZMod 5) 1 ⟨1, 1⟩
        = challengeOf 5 serZ5 serZ5 xofSum 1 1 ⟨1, 1⟩ :=
  verify_deterministic 5 serZ5 serZ5 xofSum 2 ⟨1, 1⟩ ⟨1, 1, 1⟩ ⟨1, 1⟩
    false false (by decide) (by decide) 1 1 1 1 ⟨1, 1⟩ ⟨1, 1⟩
    rfl rfl rfl rfl

open ElGamalSigmaProtocol in
/-- Witness for C7 at a concrete instance over `ZMod 5` with serializers
that always succeed. -/
theorem verify_never_fails_witness :
    verifyE 5 (fun x => some (serZ5 x)) (fun y => some (serZ5 y)) xofSum
        2 ⟨1, 1⟩ ⟨1, 1, 1⟩ ⟨1, 1⟩
      = some (verify 5 serZ5 serZ5 xofSum 2 ⟨1, 1⟩ ⟨1, 1, 1⟩ ⟨1, 1⟩) :=
  verify_never_fails 5 (fun x => some (serZ5 x)) (fun y => some (serZ5 y))
    serZ5 serZ5 xofSum (fun _ => rfl) (fun _ => rfl) 2 ⟨1, 1⟩ ⟨1, 1, 1⟩ ⟨1, 1⟩

open ElGamalSigmaProtocol in
/-- Witness for the amended C8 at a concrete instance over `ZMod 5`: the
challenge there is `3 ≠ 0` and the substituted commitment `4` differs from
the honest commitment `2`, so `verify` rejects. -/
theorem soundness_bad_commitment_witness :
    verify 5 serZ5 serZ5 xofSum
      ((2 : ZMod 5) • (1 : ZMod 5) + (2 : ZMod 5) • (1 : ZMod 5))
      (prove 5 serZ5 (fun x => x) serZ5 xofSum 1 ⟨1, 1⟩ randOne ()).2.1
      (prove 5 serZ5 (fun x => x) serZ5 xofSum 1 ⟨1, 1⟩ randOne ()).2.2
      ⟨1, 1⟩ = false :=
  soundness_bad_commitment 5 serZ5 (fun x => x) serZ5 xofSum 1 2 ⟨1, 1⟩
    randOne () (by decide) (by decide) (by decide)

open ElGamalSigmaProtocol in
/-- Witness for C9 at a concrete instance over `ZMod 5`: swapping the two
generators leaves the verification result unchanged. -/
theorem verify_params_sum_witness :
    verify 5 serZ5 serZ5 xofSum 2 ⟨1, 1⟩ ⟨1, 1, 1⟩ ⟨1, 2⟩
      = verify 5 serZ5 serZ5 xofSum 2 ⟨1, 1⟩ ⟨1, 1, 1⟩ ⟨2, 1⟩ :=
  verify_params_sum 5 serZ5 serZ5 xofSum 2 ⟨1, 1⟩ ⟨1, 1, 1⟩ ⟨1, 2⟩ ⟨2, 1⟩
    (by decide)

/-- Witness for C10 on two concrete byte-string lists with the same
concatenation but different boundaries. -/
theorem shake128_no_domain_separation_witness :
    shake128 xofSum [[1], [2, 3]] = shake128 xofSum [[1, 2], [3]] :=
  shake128_no_domain_separation xofSum [[1], [2, 3]] [[1, 2], [3]]
    (by decide)
